import Mathlib

/-!
Shallow embedding of the platform-aware image resolution subsystem of
`daemon/images/image_push.go`: the fallback platform matcher
(`OnlyPlatformWithFallback`), the manifest-list scanner
(`manifestMatchesPlatform`) and the image resolver (`GetImage`).

External collaborators (content store, lease registry, image store,
reference store, JSON unmarshalling) are modelled as explicit
environments; primitives from the containerd `platforms` package
(`Normalize`, `Only`, `FormatAll`) and the lease-key derivation
(`imageKey`) are not part of the excerpt and are modelled from the spec.
-/

namespace DockerImages

/-- An OCI platform specification: operating system, CPU architecture and
CPU variant (possibly empty), as used by `ocispec.Platform`. -/
structure Platform where
  os : String
  architecture : String
  variant : String
  deriving DecidableEq, Repr

/-- Modelled from the spec: the ordering on known ARM CPU variants used by the
external baseline matcher ("a lower ARM variant satisfying a higher one"). -/
def armVariantRank : String → Option Nat
  | "v5" => some 5
  | "v6" => some 6
  | "v7" => some 7
  | "v8" => some 8
  | _ => none

/-- Modelled from the spec: variant compatibility for the baseline matcher —
exact equality, or a known lower ARM variant satisfying a higher one. -/
def variantCompatible (desired candidate : String) : Bool :=
  desired == candidate ||
    match armVariantRank desired, armVariantRank candidate with
    | some d, some c => c ≤ d
    | _, _ => false

/-- Modelled from the spec: `platforms.Normalize`, the external
platform-normalization primitive. It assigns an implied default CPU variant
("normalize the candidate (which assigns it an implied default variant)"):
`arm` with no variant becomes `arm/v7`, and `arm64/v8` drops the redundant
variant. OS and architecture are left unchanged. -/
def platformsNormalize (p : Platform) : Platform :=
  { p with
    variant :=
      if p.architecture == "arm" && p.variant == "" then "v7"
      else if p.architecture == "arm64" && (p.variant == "v8" || p.variant == "8") then ""
      else p.variant }

/-- Modelled from the spec: the baseline "exact-except-fuzzy-variant" matcher
`platforms.Only(desired).Match(candidate)`: after normalizing both sides, OS
and architecture must match exactly and the candidate's variant must be
compatible with the desired variant. -/
def platformsOnlyMatch (desired candidate : Platform) : Bool :=
  let d := platformsNormalize desired
  let c := platformsNormalize candidate
  d.os == c.os && d.architecture == c.architecture &&
    variantCompatible d.variant c.variant

/-- The `onlyFallbackMatcher` struct (image_push.go lines 308-311): the baseline
matcher `only` together with the normalized desired platform `p`. -/
structure OnlyFallbackMatcher where
  only : Platform → Bool
  p : Platform

/-- `onlyFallbackMatcher.Match` (image_push.go lines 313-327): accept when the
baseline matcher accepts; otherwise, when the candidate declares a variant,
reject; otherwise normalize the candidate and compare only OS and
architecture against the stored normalized desired platform. -/
def OnlyFallbackMatcher.Match (m : OnlyFallbackMatcher) (other : Platform) : Bool :=
  if m.only other then
    true
  else if other.variant != "" then
    false
  else
    let otherN := platformsNormalize other
    m.p.os == otherN.os && m.p.architecture == otherN.architecture

/-- `OnlyPlatformWithFallback` (image_push.go lines 304-306): builds the
fallback matcher from `platforms.Only(p)` and `platforms.Normalize(p)`. -/
def OnlyPlatformWithFallback (p : Platform) : OnlyFallbackMatcher :=
  { only := platformsOnlyMatch p, p := platformsNormalize p }

/-! ### Manifest-list scanner: data model -/

/-- An error from the lease registry, classified as in `cerrdefs`:
"not found" is distinguished from every other error. -/
inductive LeaseErr
  | notFound
  | other
  deriving DecidableEq, Repr

/-- A lease resource (`leases.Resource`): an identifier (a digest string for
content resources) and a resource type; only `"content"` resources are read. -/
structure LeaseResource where
  id : String
  type : String
  deriving DecidableEq, Repr

/-- A manifest-list entry (`ocispec.Descriptor`) as far as the scanner reads
it: media type, digest of the referenced manifest, and its platform. -/
structure Descriptor where
  mediaType : String
  digest : String
  platform : Platform
  deriving DecidableEq, Repr

/-- The config descriptor of a manifest; only its digest is compared. -/
structure ConfigDescriptor where
  digest : String
  deriving DecidableEq, Repr

/-- The `manifest` struct (image_push.go lines 107-109): just the config
descriptor. The scanner declares one such variable outside its loops and
unmarshals into it repeatedly. -/
structure Manifest where
  config : ConfigDescriptor
  deriving DecidableEq, Repr

/-- Outcome of `json.Unmarshal` into a single struct field, with Go's merge
semantics made explicit: `err` is a parse failure (the target is modelled as
unchanged), `absent` is valid JSON in which the field does not occur (the
target is left unchanged), `value` is the field present and decoded. -/
inductive ParseOutcome (α : Type)
  | err
  | absent
  | value (a : α)
  deriving DecidableEq, Repr

/-- Result of looking up a blob with `content.ReaderAt` and reading it:
the lookup can fail with a not-found or another error, the read itself can
fail, or the blob's bytes are returned. -/
inductive ContentResult
  | lookupNotFound
  | lookupErr
  | readErr
  | ok (data : List Nat)
  deriving DecidableEq, Repr

/-- The JSON decoder, abstracted: how a byte sequence unmarshals into the
`manifests` field of `manifestList` and into the `config` field of
`manifest`. The scanner only ever feeds it bounded reads. -/
structure JsonCodec where
  parseManifestList : List Nat → ParseOutcome (List Descriptor)
  parseManifest : List Nat → ParseOutcome ConfigDescriptor

/-- The external collaborators of the scanner: the lease registry
(`ListResources`) and the content store (`ReaderAt` + read). -/
structure ScanEnv where
  leases : String → Except LeaseErr (List LeaseResource)
  content : String → ContentResult

/-- An image record: identity digest and the denormalized platform fields
copied from its config. -/
structure Image where
  id : String
  os : String
  architecture : String
  variant : String
  deriving DecidableEq, Repr

/-- Modelled from the spec: `imageKey` (not in the excerpt) derives the lease
identifier — "an opaque identifier used to look up associated leases" — from
the image's identity string, modelled as a tagged copy of the identity. -/
def imageKey (id : String) : String := "moby-image-" ++ id

/-- `makeRdr` (image_push.go lines 134-136) composed with `io.ReadAll`:
a section reader over the whole blob wrapped in `io.LimitReader(·, 1e6)`
yields exactly the first 1,000,000 bytes. -/
def makeRdr (data : List Nat) : List Nat := data.take 1000000

/-- `ocispec.MediaTypeImageManifest`. -/
def MediaTypeImageManifest : String := "application/vnd.oci.image.manifest.v1+json"

/-- `c8dimages.MediaTypeDockerSchema2Manifest`. -/
def MediaTypeDockerSchema2Manifest : String :=
  "application/vnd.docker.distribution.manifest.v2+json"

/-- The inner loop of `manifestMatchesPlatform` (image_push.go lines 174-217):
walk the entries of a parsed manifest list, skip entries with an unrecognized
media type or a platform the exact matcher rejects, read and parse each
remaining entry's referenced manifest, and compare its config digest with the
image digest. The shared `m manifest` variable is threaded through and is not
reset between iterations, exactly as in the source. -/
def checkManifestEntries (env : ScanEnv) (codec : JsonCodec) (imgDigest : String)
    (platform : Platform) : List Descriptor → Manifest → Bool × Manifest
  | [], m => (false, m)
  | md :: rest, m =>
    if !(md.mediaType == MediaTypeImageManifest ||
         md.mediaType == MediaTypeDockerSchema2Manifest) then
      checkManifestEntries env codec imgDigest platform rest m
    else
      let p : Platform :=
        { architecture := md.platform.architecture
          os := md.platform.os
          variant := md.platform.variant }
      if !platformsOnlyMatch platform p then
        checkManifestEntries env codec imgDigest platform rest m
      else
        match env.content md.digest with
        | .ok data =>
          match codec.parseManifest (makeRdr data) with
          | .err => checkManifestEntries env codec imgDigest platform rest m
          | .absent =>
            if m.config.digest == imgDigest then (true, m)
            else checkManifestEntries env codec imgDigest platform rest m
          | .value cfg =>
            if cfg.digest == imgDigest then (true, { config := cfg })
            else checkManifestEntries env codec imgDigest platform rest { config := cfg }
        | _ => checkManifestEntries env codec imgDigest platform rest m

/-- The outer loop of `manifestMatchesPlatform` (image_push.go lines 138-218):
walk the lease resources, skip non-`"content"` resources and resources whose
blob cannot be looked up, read or parsed, clear the accumulated `ml.Manifests`
before each unmarshal, and run the entry check on the parsed entries. -/
def scanLeaseResources (env : ScanEnv) (codec : JsonCodec) (imgDigest : String)
    (platform : Platform) : List LeaseResource → Manifest → Bool
  | [], _ => false
  | r :: rest, m =>
    if r.type != "content" then
      scanLeaseResources env codec imgDigest platform rest m
    else
      match env.content r.id with
      | .ok data =>
        match codec.parseManifestList (makeRdr data) with
        | .err => scanLeaseResources env codec imgDigest platform rest m
        | .absent =>
          match checkManifestEntries env codec imgDigest platform [] m with
          | (true, _) => true
          | (false, m2) => scanLeaseResources env codec imgDigest platform rest m2
        | .value manifests =>
          match checkManifestEntries env codec imgDigest platform manifests m with
          | (true, _) => true
          | (false, m2) => scanLeaseResources env codec imgDigest platform rest m2
      | _ => scanLeaseResources env codec imgDigest platform rest m

/-- `manifestMatchesPlatform` (image_push.go lines 111-221): list the image's
lease resources (not-found means "no manifest list", any other lease error is
returned) and scan them, starting from the zero-valued `manifest` variable. -/
def manifestMatchesPlatform (env : ScanEnv) (codec : JsonCodec) (img : Image)
    (platform : Platform) : Except LeaseErr Bool :=
  match env.leases (imageKey img.id) with
  | .error .notFound => .ok false
  | .error .other => .error .other
  | .ok ls =>
    .ok (scanLeaseResources env codec img.id platform ls { config := { digest := "" } })

/-! ### Image resolver -/

/-- A successfully parsed reference (`reference.ParseAnyReference`): either a
named reference (carrying its familiar string) or a bare digest. A named
reference is tried first, exactly as in the source's type switch. -/
inductive ParsedRef
  | named (familiar : String)
  | digested (digest : String)
  deriving DecidableEq, Repr

/-- The external collaborators of the resolver: the reference parser, the
reference store and the image store. `parseNamedFamiliar` models
`reference.ParseNamed` followed by `reference.FamiliarString`, used only to
render the platform-mismatch error message. -/
structure ResolverEnv where
  parseAnyReference : String → Option ParsedRef
  referenceStoreGet : String → Option String
  imageStoreGet : String → Option Image
  imageStoreSearch : String → Option String
  parseNamedFamiliar : String → Option String

/-- The errors `GetImage` can produce. `errImageDoesNotExist` corresponds to
`ErrImageDoesNotExist` (which implements the NotFound interface), `notFound`
to the `errdefs.NotFound`-wrapped platform-mismatch error, `leaseError` to a
propagated lease-registry error. -/
inductive GetImageError
  | invalidParameter
  | errImageDoesNotExist (ref : String)
  | notFound (message : String)
  | leaseError
  deriving DecidableEq, Repr

/-- `errdefs` NotFound classification of the resolver's errors:
`ErrImageDoesNotExist` has a `NotFound()` method and the platform-mismatch
error is wrapped with `errdefs.NotFound`; the other two are not NotFound. -/
def GetImageError.isNotFoundClassified : GetImageError → Bool
  | .errImageDoesNotExist _ => true
  | .notFound _ => true
  | _ => false

/-- The body of `GetImage` (image_push.go lines 263-295), before the deferred
platform check: parse the reference; for a digest-only reference fetch
directly by digest; for a named reference try the reference store then fall
back to an image-store search on the raw string. -/
def resolveImage (renv : ResolverEnv) (refOrID : String) : Except GetImageError Image :=
  match renv.parseAnyReference refOrID with
  | none => .error .invalidParameter
  | some (.digested dgst) =>
    match renv.imageStoreGet dgst with
    | some img => .ok img
    | none => .error (.errImageDoesNotExist refOrID)
  | some (.named familiar) =>
    match renv.referenceStoreGet familiar >>= renv.imageStoreGet with
    | some img => .ok img
    | none =>
      match renv.imageStoreSearch refOrID with
      | some id =>
        match renv.imageStoreGet id with
        | some img => .ok img
        | none => .error (.errImageDoesNotExist refOrID)
      | none => .error (.errImageDoesNotExist refOrID)

/-- Modelled from the spec: `platforms.FormatAll` (not in the excerpt) renders
a platform specification as its `os/architecture[/variant]` string, used
"including both platforms in the message for diagnosability". -/
def platformsFormatAll (p : Platform) : String :=
  p.os ++ "/" ++ p.architecture ++ (if p.variant == "" then "" else "/" ++ p.variant)

/-- The options accepted by `GetImage` (`backend.GetImageOpts`): an optional
requested platform. -/
structure GetImageOpts where
  platform : Option Platform
  deriving DecidableEq, Repr

/-- The platform-mismatch error message (image_push.go line 261). -/
def platformMismatchMessage (imgName : String) (imgPlat p : Platform) : String :=
  "image with reference " ++ imgName ++ " was found but its platform (" ++
    platformsFormatAll imgPlat ++ ") does not match the specified platform (" ++
    platformsFormatAll p ++ ")"

/-- `GetImage` (image_push.go lines 224-296): resolve the reference, and —
only when a platform was requested and resolution succeeded — run the
deferred platform check: accept when the fallback matcher accepts the image's
denormalized platform; otherwise consult the manifest-list scanner,
propagating its error, accepting on a corroborated match, and otherwise
returning the NotFound platform-mismatch error. -/
def GetImage (renv : ResolverEnv) (senv : ScanEnv) (codec : JsonCodec)
    (refOrID : String) (options : GetImageOpts) : Except GetImageError Image :=
  match resolveImage renv refOrID with
  | .error e => .error e
  | .ok retImg =>
    match options.platform with
    | none => .ok retImg
    | some p =>
      let imgPlat : Platform :=
        { os := retImg.os, architecture := retImg.architecture, variant := retImg.variant }
      if (OnlyPlatformWithFallback p).Match imgPlat then
        .ok retImg
      else
        match manifestMatchesPlatform senv codec retImg p with
        | .error _ => .error .leaseError
        | .ok true => .ok retImg
        | .ok false =>
          let imgName := (renv.parseNamedFamiliar refOrID).getD refOrID
          .error (.notFound (platformMismatchMessage imgName imgPlat p))

/-! ### Spec-side predicates -/

/-- `sub` occurs contiguously inside `s`. -/
def containsSubstring (s sub : String) : Prop := ∃ a b, s = a ++ sub ++ b

/-- Spec-side reading of one manifest-list entry establishing the match for
an image digest: recognized media type, exact platform match, and a
referenced manifest whose parsed config digest equals the image digest. -/
def entryEstablishesMatch (env : ScanEnv) (codec : JsonCodec) (imgDigest : String)
    (platform : Platform) (md : Descriptor) : Prop :=
  (md.mediaType = MediaTypeImageManifest ∨ md.mediaType = MediaTypeDockerSchema2Manifest) ∧
  platformsOnlyMatch platform md.platform = true ∧
  ∃ data cfg, env.content md.digest = .ok data ∧
    codec.parseManifest (makeRdr data) = .value cfg ∧ cfg.digest = imgDigest

/-- Spec-side reading of one lease resource establishing the match: a
content-typed resource whose blob parses as a manifest list containing an
entry that establishes the match. -/
def resourceEstablishesMatch (env : ScanEnv) (codec : JsonCodec) (imgDigest : String)
    (platform : Platform) (r : LeaseResource) : Prop :=
  r.type = "content" ∧
  ∃ data entries, env.content r.id = .ok data ∧
    codec.parseManifestList (makeRdr data) = .value entries ∧
    ∃ md ∈ entries, entryEstablishesMatch env codec imgDigest platform md

/-- The entries considered for one lease resource: `none` when the resource
is skipped before entry evaluation (wrong type, lookup/read failure, parse
failure), otherwise exactly the entries parsed from that resource's blob —
an absent `manifests` field yields zero entries because `ml.Manifests` is
cleared before every unmarshal. -/
def entriesForResource (env : ScanEnv) (codec : JsonCodec) (r : LeaseResource) :
    Option (List Descriptor) :=
  if r.type = "content" then
    match env.content r.id with
    | .ok data =>
      match codec.parseManifestList (makeRdr data) with
      | .value entries => some entries
      | .absent => some []
      | .err => none
    | _ => none
  else none

/-- Truncate a content result to its bounded-read view: at most the first
1,000,000 bytes of a successfully read blob. -/
def contentTrunc : ContentResult → ContentResult
  | .ok data => .ok (data.take 1000000)
  | x => x

/-- The same scan environment with every blob truncated to 1,000,000 bytes. -/
def ScanEnv.truncate (env : ScanEnv) : ScanEnv :=
  { leases := env.leases, content := fun d => contentTrunc (env.content d) }

/-- A lease resource on which the scan's blob handling fails: the blob lookup
or read fails, or the manifest-list unmarshal fails. -/
def resourceReadFails (env : ScanEnv) (codec : JsonCodec) (r : LeaseResource) : Bool :=
  match env.content r.id with
  | .ok data =>
    match codec.parseManifestList (makeRdr data) with
    | .err => true
    | _ => false
  | _ => true

/-- A manifest-list entry on which the referenced-manifest handling fails:
the blob lookup or read fails, or the manifest unmarshal fails. -/
def entryReadFails (env : ScanEnv) (codec : JsonCodec) (md : Descriptor) : Bool :=
  match env.content md.digest with
  | .ok data =>
    match codec.parseManifest (makeRdr data) with
    | .err => true
    | _ => false
  | _ => true

/-! ### Concrete sample data (used by witnesses) -/

/-- A decoder that fails on every byte sequence. -/
def codecNil : JsonCodec :=
  { parseManifestList := fun _ => .err, parseManifest := fun _ => .err }

/-- A scan environment whose lease registry reports not-found. -/
def envNoLease : ScanEnv :=
  { leases := fun _ => .error .notFound, content := fun _ => .lookupNotFound }

/-- A scan environment with an empty lease set and failing content lookups. -/
def envLookupErr : ScanEnv :=
  { leases := fun _ => .ok [], content := fun _ => .lookupErr }

/-- A sample amd64 image record. -/
def imgW : Image :=
  { id := "sha256:abc", os := "linux", architecture := "amd64", variant := "" }

/-- A sample requested platform. -/
def platW : Platform := ⟨"linux", "arm64", ""⟩

/-- A sample manifest-list entry matching `platW` and referencing a manifest
whose config digest is `imgW.id`. -/
def mdW : Descriptor :=
  { mediaType := MediaTypeImageManifest, digest := "sha256:man", platform := platW }

/-- A content-typed lease resource holding the sample manifest list. -/
def rW : LeaseResource := { id := "sha256:mlist", type := "content" }

/-- A content-typed lease resource whose blob is missing. -/
def rBad : LeaseResource := { id := "sha256:junk", type := "content" }

/-- A non-content lease resource. -/
def rSnap : LeaseResource := { id := "snap", type := "snapshot" }

/-- A decoder recognizing the sample blobs: `[0]` is the manifest list with
the single entry `mdW`, `[1]` is the manifest with config digest `imgW.id`. -/
def codecFound : JsonCodec :=
  { parseManifestList := fun data => if data = [0] then .value [mdW] else .err
    parseManifest := fun data => if data = [1] then .value { digest := "sha256:abc" } else .err }

/-- A scan environment whose lease set holds a non-content resource, a
missing blob and the sample manifest list. -/
def envFound : ScanEnv :=
  { leases := fun _ => .ok [rSnap, rBad, rW]
    content := fun d =>
      if d = "sha256:mlist" then .ok [0]
      else if d = "sha256:man" then .ok [1]
      else .lookupNotFound }

/-- A scan environment with one content resource whose blob is valid JSON
without a `manifests` field. -/
def envAbsent : ScanEnv :=
  { leases := fun _ => .ok [rW]
    content := fun d => if d = "sha256:mlist" then .ok [2] else .lookupNotFound }

/-- A decoder for `envAbsent`: blob `[2]` is valid JSON lacking the
`manifests` field. -/
def codecAbsent : JsonCodec :=
  { parseManifestList := fun data => if data = [2] then .absent else .err
    parseManifest := fun _ => .err }

/-- A resolver environment resolving every reference to `imgW` through the
reference store. -/
def renvW : ResolverEnv :=
  { parseAnyReference := fun _ => some (.named "busybox")
    referenceStoreGet := fun _ => some "sha256:abc"
    imageStoreGet := fun _ => some imgW
    imageStoreSearch := fun _ => none
    parseNamedFamiliar := fun _ => none }

/-! ### Theorems -/

theorem platformsNormalize_os (p : Platform) : (platformsNormalize p).os = p.os := rfl

theorem platformsNormalize_architecture (p : Platform) :
    (platformsNormalize p).architecture = p.architecture := rfl

/-- C2: the fallback matcher accepts a candidate exactly when the baseline
exact matcher accepts it, or the baseline rejects it, the candidate's variant
is empty, and the normalized candidate agrees with the normalized desired
platform on both OS and architecture. -/
theorem fallback_match_iff (d c : Platform) :
    (OnlyPlatformWithFallback d).Match c = true ↔
      (platformsOnlyMatch d c = true ∨
        (platformsOnlyMatch d c = false ∧ c.variant = "" ∧
          (platformsNormalize c).os = (platformsNormalize d).os ∧
          (platformsNormalize c).architecture = (platformsNormalize d).architecture)) := by
  unfold OnlyFallbackMatcher.Match OnlyPlatformWithFallback
  by_cases hb : platformsOnlyMatch d c = true
  · simp [hb]
  · have hb' : platformsOnlyMatch d c = false := by
      cases h : platformsOnlyMatch d c
      · rfl
      · exact absurd h hb
    by_cases hv : c.variant = ""
    · simp only [hb', hv, bne_self_eq_false, if_false, Bool.false_eq_true, false_or,
        Bool.ite_eq_true_distrib, if_neg, Bool.and_eq_true, beq_iff_eq, true_and, and_true]
      constructor
      · rintro ⟨h1, h2⟩
        exact ⟨h1.symm, h2.symm⟩
      · rintro ⟨h1, h2⟩
        exact ⟨h1.symm, h2.symm⟩
    · simp [hb', hv]

/-- C7: whenever the desired and candidate platforms differ on OS or on
architecture, the fallback matcher rejects, regardless of either variant. -/
theorem fallback_match_false_of_os_arch_mismatch (d c : Platform)
    (h : d.os ≠ c.os ∨ d.architecture ≠ c.architecture) :
    (OnlyPlatformWithFallback d).Match c = false := by
  unfold OnlyFallbackMatcher.Match OnlyPlatformWithFallback
  have hbase : platformsOnlyMatch d c = false := by
    unfold platformsOnlyMatch
    rcases h with h | h
    · simp [platformsNormalize_os, h]
    · simp [platformsNormalize_architecture, h]
  by_cases hv : c.variant = ""
  · simp only [hbase, if_false]
    rcases h with h | h
    · simp [hv, platformsNormalize_os, h]
    · simp [hv, platformsNormalize_architecture, h]
  · simp [hbase, hv]

/-- Witness for C7 at a concrete mismatching pair. -/
theorem fallback_match_false_of_os_arch_mismatch_witness :
    (OnlyPlatformWithFallback ⟨"linux", "arm", "v7"⟩).Match ⟨"linux", "arm64", ""⟩ = false :=
  fallback_match_false_of_os_arch_mismatch ⟨"linux", "arm", "v7"⟩ ⟨"linux", "arm64", ""⟩
    (Or.inr (by decide))

/-- C5: a lease registry that reports not-found for the image's lease makes
the scanner return `found = false` with no error. -/
theorem manifestMatchesPlatform_lease_notFound (env : ScanEnv) (codec : JsonCodec)
    (img : Image) (platform : Platform)
    (h : env.leases (imageKey img.id) = .error .notFound) :
    manifestMatchesPlatform env codec img platform = .ok false := by
  unfold manifestMatchesPlatform
  rw [h]

/-- Witness for C5 on the concrete not-found environment. -/
theorem manifestMatchesPlatform_lease_notFound_witness :
    manifestMatchesPlatform envNoLease codecNil imgW platW = .ok false :=
  manifestMatchesPlatform_lease_notFound envNoLease codecNil imgW platW rfl

/-- C6: with no platform requested, `GetImage` is exactly the reference
resolution — the scan environment and the decoder are irrelevant (no platform
verification, no lease enumeration, no content reads), whatever the resolved
record's platform fields hold. -/
theorem GetImage_no_platform_option (renv : ResolverEnv) (senv : ScanEnv)
    (codec : JsonCodec) (refOrID : String) :
    GetImage renv senv codec refOrID { platform := none } = resolveImage renv refOrID := by
  unfold GetImage
  cases resolveImage renv refOrID <;> rfl

theorem platformMismatchMessage_contains_requested (n : String) (ip p : Platform) :
    containsSubstring (platformMismatchMessage n ip p) (platformsFormatAll p) :=
  ⟨"image with reference " ++ n ++ " was found but its platform (" ++
      platformsFormatAll ip ++ ") does not match the specified platform (", ")", by
    simp [platformMismatchMessage, String.append_assoc]⟩

theorem platformMismatchMessage_contains_recorded (n : String) (ip p : Platform) :
    containsSubstring (platformMismatchMessage n ip p) (platformsFormatAll ip) :=
  ⟨"image with reference " ++ n ++ " was found but its platform (",
    ") does not match the specified platform (" ++ platformsFormatAll p ++ ")", by
    simp [platformMismatchMessage, String.append_assoc]⟩

/-- C1: when the reference resolves to an image whose denormalized platform
the fallback matcher rejects and the scanner corroborates nothing (with no
scanner error), `GetImage` returns a NotFound-classified error whose message
contains both the requested and the recorded platform strings. -/
theorem GetImage_platform_mismatch_notFound (renv : ResolverEnv) (senv : ScanEnv)
    (codec : JsonCodec) (refOrID : String) (img : Image) (P : Platform)
    (h1 : resolveImage renv refOrID = .ok img)
    (h2 : (OnlyPlatformWithFallback P).Match ⟨img.os, img.architecture, img.variant⟩ = false)
    (h3 : manifestMatchesPlatform senv codec img P = .ok false) :
    ∃ msg, GetImage renv senv codec refOrID { platform := some P } = .error (.notFound msg) ∧
      GetImageError.isNotFoundClassified (.notFound msg) = true ∧
      containsSubstring msg (platformsFormatAll P) ∧
      containsSubstring msg (platformsFormatAll ⟨img.os, img.architecture, img.variant⟩) := by
  refine ⟨platformMismatchMessage ((renv.parseNamedFamiliar refOrID).getD refOrID)
      ⟨img.os, img.architecture, img.variant⟩ P, ?_, rfl,
    platformMismatchMessage_contains_requested _ _ _,
    platformMismatchMessage_contains_recorded _ _ _⟩
  unfold GetImage
  rw [h1]
  simp only [h2, Bool.false_eq_true, if_false, h3]

/-- Witness for C1 on the concrete mismatching setup. -/
theorem GetImage_platform_mismatch_notFound_witness :
    ∃ msg, GetImage renvW envNoLease codecNil "busybox" { platform := some platW } =
        .error (.notFound msg) ∧
      GetImageError.isNotFoundClassified (.notFound msg) = true ∧
      containsSubstring msg (platformsFormatAll platW) ∧
      containsSubstring msg (platformsFormatAll ⟨imgW.os, imgW.architecture, imgW.variant⟩) :=
  GetImage_platform_mismatch_notFound renvW envNoLease codecNil "busybox" imgW platW rfl
    (by decide) rfl

theorem platform_eta (p : Platform) :
    ({ os := p.os, architecture := p.architecture, variant := p.variant } : Platform) = p := rfl

theorem checkManifestEntries_of_found (env : ScanEnv) (codec : JsonCodec)
    (imgDigest : String) (platform : Platform) (entries : List Descriptor)
    (h : ∃ md ∈ entries, entryEstablishesMatch env codec imgDigest platform md) :
    ∀ m : Manifest, (checkManifestEntries env codec imgDigest platform entries m).1 = true := by
  induction entries with
  | nil =>
    rcases h with ⟨md, hmem, _⟩
    exact absurd hmem (List.not_mem_nil md)
  | cons md0 rest ih =>
    intro m
    rcases h with ⟨md, hmem, hmd⟩
    rcases List.mem_cons.mp hmem with heq | hmem2
    · subst heq
      obtain ⟨hmedia, hplat, data, cfg, hc, hp, hd⟩ := hmd
      have hmedia2 : (md.mediaType == MediaTypeImageManifest ||
          md.mediaType == MediaTypeDockerSchema2Manifest) = true := by
        rcases hmedia with h1 | h1 <;> simp [h1]
      rw [checkManifestEntries.eq_def]
      dsimp only
      simp [hmedia2, platform_eta, hplat, hc, hp, hd]
    · have hrest : ∃ x ∈ rest, entryEstablishesMatch env codec imgDigest platform x :=
        ⟨md, hmem2, hmd⟩
      rw [checkManifestEntries.eq_def]
      dsimp only
      repeat' split
      all_goals first | rfl | exact ih hrest _

theorem scanLeaseResources_of_found (env : ScanEnv) (codec : JsonCodec)
    (imgDigest : String) (platform : Platform) (ls : List LeaseResource)
    (h : ∃ r ∈ ls, resourceEstablishesMatch env codec imgDigest platform r) :
    ∀ m : Manifest, scanLeaseResources env codec imgDigest platform ls m = true := by
  induction ls with
  | nil =>
    rcases h with ⟨r, hmem, _⟩
    exact absurd hmem (List.not_mem_nil r)
  | cons r0 rest ih =>
    intro m
    rcases h with ⟨r, hmem, hr⟩
    rcases List.mem_cons.mp hmem with heq | hmem2
    · subst heq
      obtain ⟨htype, data, entries, hc, hp, hfound⟩ := hr
      have hck := checkManifestEntries_of_found env codec imgDigest platform entries hfound m
      rw [scanLeaseResources.eq_def]
      dsimp only
      rcases hck2 : checkManifestEntries env codec imgDigest platform entries m with ⟨b, m2⟩
      rw [hck2] at hck
      cases b
      · simp at hck
      · simp [htype, hc, hp, hck2]
    · have hrest : ∃ x ∈ rest, resourceEstablishesMatch env codec imgDigest platform x :=
        ⟨r, hmem2, hr⟩
      rw [scanLeaseResources.eq_def]
      dsimp only
      repeat' split
      all_goals first | rfl | exact ih hrest _

/-- C8: whenever the lease set contains a content resource whose manifest
list holds an entry matching the desired platform with the target config
digest, the scanner reports `found = true`; the scan result stays `true` for
every permutation of the lease resources, and unrelated or malformed
resources in the set cannot change it (the matching resource is only required
to be a member of the set). -/
theorem scanner_match_invariant (env : ScanEnv) (codec : JsonCodec) (img : Image)
    (platform : Platform) (ls ls2 : List LeaseResource) (m : Manifest)
    (h1 : env.leases (imageKey img.id) = .ok ls)
    (h2 : ∃ r ∈ ls, resourceEstablishesMatch env codec img.id platform r)
    (h3 : ls.Perm ls2) :
    manifestMatchesPlatform env codec img platform = .ok true ∧
    scanLeaseResources env codec img.id platform ls2 m = true := by
  constructor
  · unfold manifestMatchesPlatform
    rw [h1]
    dsimp only
    rw [scanLeaseResources_of_found env codec img.id platform ls h2]
  · have h4 : ∃ r ∈ ls2, resourceEstablishesMatch env codec img.id platform r := by
      rcases h2 with ⟨r, hmem, hr⟩
      exact ⟨r, h3.mem_iff.mp hmem, hr⟩
    exact scanLeaseResources_of_found env codec img.id platform ls2 h4 m

/-- Witness for C8: the sample environment holds a snapshot resource, a
missing blob and the good manifest list; the scan also succeeds on a
permuted lease set. -/
theorem scanner_match_invariant_witness :
    manifestMatchesPlatform envFound codecFound imgW platW = .ok true ∧
    scanLeaseResources envFound codecFound imgW.id platW [rW, rSnap, rBad] ⟨⟨""⟩⟩ = true :=
  scanner_match_invariant envFound codecFound imgW platW [rSnap, rBad, rW] [rW, rSnap, rBad]
    ⟨⟨""⟩⟩ rfl
    ⟨rW, by decide,
      rfl, [0], [mdW], by decide, by decide,
      mdW, by decide,
      Or.inl rfl, by decide, [1], ⟨"sha256:abc"⟩, by decide, by decide, rfl⟩
    (by decide)

theorem exists_cons_of_not_head {α : Type} (P : α → Prop) (a : α) (l : List α)
    (h : ¬ P a) : (∃ x ∈ a :: l, P x) ↔ ∃ x ∈ l, P x := by
  constructor
  · rintro ⟨x, hx, hP⟩
    rcases List.mem_cons.mp hx with heq | hx2
    · subst heq
      exact absurd hP h
    · exact ⟨x, hx2, hP⟩
  · rintro ⟨x, hx, hP⟩
    exact ⟨x, List.mem_cons_of_mem a hx, hP⟩

theorem checkManifestEntries_spec (env : ScanEnv) (codec : JsonCodec)
    (imgDigest : String) (platform : Platform) (entries : List Descriptor) :
    ∀ m : Manifest, m.config.digest ≠ imgDigest →
      (((checkManifestEntries env codec imgDigest platform entries m).1 = true ↔
          ∃ md ∈ entries, entryEstablishesMatch env codec imgDigest platform md) ∧
        ((checkManifestEntries env codec imgDigest platform entries m).1 = false →
          (checkManifestEntries env codec imgDigest platform entries m).2.config.digest ≠
            imgDigest)) := by
  induction entries with
  | nil =>
    intro m hm
    refine ⟨by simp [checkManifestEntries], fun _ => hm⟩
  | cons md0 rest ih =>
    intro m hm
    rw [checkManifestEntries.eq_def]
    dsimp only
    cases hb1 : (md0.mediaType == MediaTypeImageManifest ||
        md0.mediaType == MediaTypeDockerSchema2Manifest) with
    | false =>
      have hP0 : ¬ entryEstablishesMatch env codec imgDigest platform md0 := by
        rintro ⟨hmedia, -, -⟩
        rcases hmedia with h1 | h1 <;> simp [h1] at hb1
      simp only [hb1, Bool.not_false, if_true]
      refine ⟨?_, (ih m hm).2⟩
      rw [(ih m hm).1, exists_cons_of_not_head _ _ _ hP0]
    | true =>
      simp only [hb1, Bool.not_true, Bool.false_eq_true, if_false]
      cases hb2 : platformsOnlyMatch platform md0.platform with
      | false =>
        have hP0 : ¬ entryEstablishesMatch env codec imgDigest platform md0 := by
          rintro ⟨-, hplat, -⟩
          rw [hb2] at hplat
          exact Bool.noConfusion hplat
        simp only [platform_eta, hb2, Bool.not_false, if_true]
        refine ⟨?_, (ih m hm).2⟩
        rw [(ih m hm).1, exists_cons_of_not_head _ _ _ hP0]
      | true =>
        simp only [platform_eta, hb2, Bool.not_true, Bool.false_eq_true, if_false]
        cases hc : env.content md0.digest with
        | lookupNotFound =>
          have hP0 : ¬ entryEstablishesMatch env codec imgDigest platform md0 := by
            rintro ⟨-, -, data2, cfg2, hc2, -⟩
            rw [hc] at hc2
            exact ContentResult.noConfusion hc2
          dsimp only
          refine ⟨?_, (ih m hm).2⟩
          rw [(ih m hm).1, exists_cons_of_not_head _ _ _ hP0]
        | lookupErr =>
          have hP0 : ¬ entryEstablishesMatch env codec imgDigest platform md0 := by
            rintro ⟨-, -, data2, cfg2, hc2, -⟩
            rw [hc] at hc2
            exact ContentResult.noConfusion hc2
          dsimp only
          refine ⟨?_, (ih m hm).2⟩
          rw [(ih m hm).1, exists_cons_of_not_head _ _ _ hP0]
        | readErr =>
          have hP0 : ¬ entryEstablishesMatch env codec imgDigest platform md0 := by
            rintro ⟨-, -, data2, cfg2, hc2, -⟩
            rw [hc] at hc2
            exact ContentResult.noConfusion hc2
          dsimp only
          refine ⟨?_, (ih m hm).2⟩
          rw [(ih m hm).1, exists_cons_of_not_head _ _ _ hP0]
        | ok data =>
          dsimp only
          cases hp : codec.parseManifest (makeRdr data) with
          | err =>
            have hP0 : ¬ entryEstablishesMatch env codec imgDigest platform md0 := by
              rintro ⟨-, -, data2, cfg2, hc2, hp2, -⟩
              rw [hc] at hc2
              injection hc2 with hdata
              subst hdata
              rw [hp] at hp2
              exact ParseOutcome.noConfusion hp2
            dsimp only
            refine ⟨?_, (ih m hm).2⟩
            rw [(ih m hm).1, exists_cons_of_not_head _ _ _ hP0]
          | absent =>
            have hbeq : (m.config.digest == imgDigest) = false := by
              simp [hm]
            have hP0 : ¬ entryEstablishesMatch env codec imgDigest platform md0 := by
              rintro ⟨-, -, data2, cfg2, hc2, hp2, -⟩
              rw [hc] at hc2
              injection hc2 with hdata
              subst hdata
              rw [hp] at hp2
              exact ParseOutcome.noConfusion hp2
            dsimp only
            simp only [hbeq, Bool.false_eq_true, if_false]
            refine ⟨?_, (ih m hm).2⟩
            rw [(ih m hm).1, exists_cons_of_not_head _ _ _ hP0]
          | value cfg =>
            dsimp only
            cases hd : (cfg.digest == imgDigest) with
            | true =>
              have hmedia : md0.mediaType = MediaTypeImageManifest ∨
                  md0.mediaType = MediaTypeDockerSchema2Manifest := by
                rcases Bool.or_eq_true_iff.mp hb1 with h1 | h1
                · exact Or.inl (by simpa using h1)
                · exact Or.inr (by simpa using h1)
              simp only [hd, eq_self_iff_true, if_true]
              constructor
              · constructor
                · intro _
                  exact ⟨md0, List.mem_cons_self md0 rest,
                    hmedia, hb2, data, cfg, hc, hp, by simpa using hd⟩
                · intro _
                  trivial
              · intro hfalse
                simp at hfalse
            | false =>
              have hm2 : (⟨cfg⟩ : Manifest).config.digest ≠ imgDigest := by
                simpa using hd
              have hP0 : ¬ entryEstablishesMatch env codec imgDigest platform md0 := by
                rintro ⟨-, -, data2, cfg2, hc2, hp2, hd2⟩
                rw [hc] at hc2
                injection hc2 with hdata
                subst hdata
                rw [hp] at hp2
                injection hp2 with hcfg
                subst hcfg
                rw [hd2] at hd
                simp at hd
              simp only [hd, Bool.false_eq_true, if_false]
              refine ⟨?_, (ih ⟨cfg⟩ hm2).2⟩
              rw [(ih ⟨cfg⟩ hm2).1, exists_cons_of_not_head _ _ _ hP0]

theorem scanLeaseResources_spec (env : ScanEnv) (codec : JsonCodec)
    (imgDigest : String) (platform : Platform) (ls : List LeaseResource) :
    ∀ m : Manifest, m.config.digest ≠ imgDigest →
      (scanLeaseResources env codec imgDigest platform ls m = true ↔
        ∃ r ∈ ls, resourceEstablishesMatch env codec imgDigest platform r) := by
  induction ls with
  | nil =>
    intro m hm
    simp [scanLeaseResources]
  | cons r0 rest ih =>
    intro m hm
    rw [scanLeaseResources.eq_def]
    dsimp only
    cases hb1 : (r0.type != "content") with
    | true =>
      have hP0 : ¬ resourceEstablishesMatch env codec imgDigest platform r0 := by
        rintro ⟨htype, -⟩
        rw [htype] at hb1
        simp at hb1
      simp only [hb1, if_true]
      rw [ih m hm, exists_cons_of_not_head _ _ _ hP0]
    | false =>
      simp only [hb1, Bool.false_eq_true, if_false]
      cases hc : env.content r0.id with
      | lookupNotFound =>
        have hP0 : ¬ resourceEstablishesMatch env codec imgDigest platform r0 := by
          rintro ⟨-, data2, entries2, hc2, -⟩
          rw [hc] at hc2
          exact ContentResult.noConfusion hc2
        dsimp only
        rw [ih m hm, exists_cons_of_not_head _ _ _ hP0]
      | lookupErr =>
        have hP0 : ¬ resourceEstablishesMatch env codec imgDigest platform r0 := by
          rintro ⟨-, data2, entries2, hc2, -⟩
          rw [hc] at hc2
          exact ContentResult.noConfusion hc2
        dsimp only
        rw [ih m hm, exists_cons_of_not_head _ _ _ hP0]
      | readErr =>
        have hP0 : ¬ resourceEstablishesMatch env codec imgDigest platform r0 := by
          rintro ⟨-, data2, entries2, hc2, -⟩
          rw [hc] at hc2
          exact ContentResult.noConfusion hc2
        dsimp only
        rw [ih m hm, exists_cons_of_not_head _ _ _ hP0]
      | ok data =>
        dsimp only
        cases hp : codec.parseManifestList (makeRdr data) with
        | err =>
          have hP0 : ¬ resourceEstablishesMatch env codec imgDigest platform r0 := by
            rintro ⟨-, data2, entries2, hc2, hp2, -⟩
            rw [hc] at hc2
            injection hc2 with hdata
            subst hdata
            rw [hp] at hp2
            exact ParseOutcome.noConfusion hp2
          dsimp only
          rw [ih m hm, exists_cons_of_not_head _ _ _ hP0]
        | absent =>
          have hP0 : ¬ resourceEstablishesMatch env codec imgDigest platform r0 := by
            rintro ⟨-, data2, entries2, hc2, hp2, -⟩
            rw [hc] at hc2
            injection hc2 with hdata
            subst hdata
            rw [hp] at hp2
            exact ParseOutcome.noConfusion hp2
          dsimp only
          rw [show checkManifestEntries env codec imgDigest platform [] m = (false, m) from rfl]
          dsimp only
          rw [ih m hm, exists_cons_of_not_head _ _ _ hP0]
        | value entries =>
          dsimp only
          have htype : r0.type = "content" := by
            simpa using hb1
          have hspec := checkManifestEntries_spec env codec imgDigest platform entries m hm
          rcases hck : checkManifestEntries env codec imgDigest platform entries m with ⟨b, m2⟩
          rw [hck] at hspec
          cases b with
          | true =>
            have hex : ∃ md ∈ entries, entryEstablishesMatch env codec imgDigest platform md :=
              hspec.1.mp rfl
            dsimp only
            constructor
            · intro _
              exact ⟨r0, List.mem_cons_self r0 rest, htype, data, entries, hc, hp, hex⟩
            · intro _
              rfl
          | false =>
            have hm2 : m2.config.digest ≠ imgDigest := hspec.2 rfl
            have hP0 : ¬ resourceEstablishesMatch env codec imgDigest platform r0 := by
              rintro ⟨-, data2, entries2, hc2, hp2, hex2⟩
              rw [hc] at hc2
              injection hc2 with hdata
              subst hdata
              rw [hp] at hp2
              injection hp2 with hentries
              subst hentries
              have := hspec.1.mpr hex2
              simp at this
            dsimp only
            rw [ih m2 hm2, exists_cons_of_not_head _ _ _ hP0]

/-- C3: with a non-empty image digest and a successfully listed lease set,
the scanner reports `found = true` exactly when some content-typed lease
resource's blob parses as a manifest list containing an entry of a recognized
media type whose platform the exact matcher accepts and whose referenced
manifest parses with a config digest equal to the image's identity digest. -/
theorem manifestMatchesPlatform_found_iff (env : ScanEnv) (codec : JsonCodec)
    (img : Image) (platform : Platform) (ls : List LeaseResource)
    (h0 : img.id ≠ "")
    (h1 : env.leases (imageKey img.id) = .ok ls) :
    manifestMatchesPlatform env codec img platform = .ok true ↔
      ∃ r ∈ ls, resourceEstablishesMatch env codec img.id platform r := by
  unfold manifestMatchesPlatform
  rw [h1]
  dsimp only
  rw [Except.ok.injEq]
  exact scanLeaseResources_spec env codec img.id platform ls ⟨⟨""⟩⟩ fun h => h0 h.symm

/-- Witness for C3 on the concrete environment holding one good manifest
list next to a snapshot resource and a missing blob. -/
theorem manifestMatchesPlatform_found_iff_witness :
    manifestMatchesPlatform envFound codecFound imgW platW = .ok true ↔
      ∃ r ∈ [rSnap, rBad, rW], resourceEstablishesMatch envFound codecFound imgW.id platW r :=
  manifestMatchesPlatform_found_iff envFound codecFound imgW platW [rSnap, rBad, rW]
    (by decide) rfl

/-- C4: the scanner returns an error exactly when the lease registry fails
with an error other than not-found; a lease resource whose blob lookup, read
or manifest-list parse fails is skipped with the scan continuing on the
remaining resources, and a manifest-list entry whose referenced-manifest
lookup, read or parse fails is skipped with the scan continuing on the
remaining entries. -/
theorem scanner_errors_skip_and_continue (env : ScanEnv) (codec : JsonCodec) (img : Image)
    (platform : Platform) (r : LeaseResource) (md : Descriptor)
    (rest : List LeaseResource) (erest : List Descriptor) (m : Manifest)
    (h1 : resourceReadFails env codec r = true)
    (h2 : entryReadFails env codec md = true) :
    ((∃ e, manifestMatchesPlatform env codec img platform = .error e) ↔
      env.leases (imageKey img.id) = .error .other) ∧
    scanLeaseResources env codec img.id platform (r :: rest) m =
      scanLeaseResources env codec img.id platform rest m ∧
    checkManifestEntries env codec img.id platform (md :: erest) m =
      checkManifestEntries env codec img.id platform erest m := by
  refine ⟨?_, ?_, ?_⟩
  · unfold manifestMatchesPlatform
    cases hl : env.leases (imageKey img.id) with
    | ok ls =>
      dsimp only
      constructor
      · rintro ⟨e, he⟩
        exact Except.noConfusion he
      · intro h
        exact Except.noConfusion h
    | error e =>
      cases e with
      | notFound =>
        dsimp only
        constructor
        · rintro ⟨e2, he⟩
          exact Except.noConfusion he
        · intro h
          injection h with h3
          exact LeaseErr.noConfusion h3
      | other =>
        dsimp only
        exact ⟨fun _ => rfl, fun _ => ⟨.other, rfl⟩⟩
  · rw [scanLeaseResources.eq_def]
    dsimp only
    unfold resourceReadFails at h1
    cases hb1 : (r.type != "content") with
    | true => simp only [hb1, if_true]
    | false =>
      simp only [hb1, Bool.false_eq_true, if_false]
      cases hc : env.content r.id with
      | ok data =>
        rw [hc] at h1
        dsimp only at h1
        dsimp only
        cases hp : codec.parseManifestList (makeRdr data) with
        | err => dsimp only
        | absent =>
          rw [hp] at h1
          simp at h1
        | value entries =>
          rw [hp] at h1
          simp at h1
      | lookupNotFound => dsimp only
      | lookupErr => dsimp only
      | readErr => dsimp only
  · rw [checkManifestEntries.eq_def]
    dsimp only
    unfold entryReadFails at h2
    cases hb1 : (md.mediaType == MediaTypeImageManifest ||
        md.mediaType == MediaTypeDockerSchema2Manifest) with
    | false => simp only [hb1, Bool.not_false, if_true]
    | true =>
      simp only [hb1, Bool.not_true, Bool.false_eq_true, if_false]
      cases hb2 : platformsOnlyMatch platform md.platform with
      | false => simp only [platform_eta, hb2, Bool.not_false, if_true]
      | true =>
        simp only [platform_eta, hb2, Bool.not_true, Bool.false_eq_true, if_false]
        cases hc : env.content md.digest with
        | ok data =>
          rw [hc] at h2
          dsimp only at h2
          dsimp only
          cases hp : codec.parseManifest (makeRdr data) with
          | err => dsimp only
          | absent =>
            rw [hp] at h2
            simp at h2
          | value cfg =>
            rw [hp] at h2
            simp at h2
        | lookupNotFound => dsimp only
        | lookupErr => dsimp only
        | readErr => dsimp only

/-- Witness for C4 on a concrete environment whose content lookups all fail. -/
theorem scanner_errors_skip_and_continue_witness :
    ((∃ e, manifestMatchesPlatform envLookupErr codecNil imgW platW = .error e) ↔
      envLookupErr.leases (imageKey imgW.id) = .error .other) ∧
    scanLeaseResources envLookupErr codecNil imgW.id platW [rW] ⟨⟨""⟩⟩ =
      scanLeaseResources envLookupErr codecNil imgW.id platW [] ⟨⟨""⟩⟩ ∧
    checkManifestEntries envLookupErr codecNil imgW.id platW [mdW] ⟨⟨""⟩⟩ =
      checkManifestEntries envLookupErr codecNil imgW.id platW [] ⟨⟨""⟩⟩ :=
  scanner_errors_skip_and_continue envLookupErr codecNil imgW platW rW mdW [] [] ⟨⟨""⟩⟩
    (by decide) (by decide)

theorem checkManifestEntries_truncate (env : ScanEnv) (codec : JsonCodec)
    (imgDigest : String) (platform : Platform) (entries : List Descriptor) :
    ∀ m : Manifest,
      checkManifestEntries (ScanEnv.truncate env) codec imgDigest platform entries m =
        checkManifestEntries env codec imgDigest platform entries m := by
  induction entries with
  | nil => intro m; rfl
  | cons md0 rest ih =>
    intro m
    rw [checkManifestEntries.eq_def]
    conv_rhs => rw [checkManifestEntries.eq_def]
    dsimp only
    cases hb1 : (md0.mediaType == MediaTypeImageManifest ||
        md0.mediaType == MediaTypeDockerSchema2Manifest) with
    | false =>
      simp only [hb1, Bool.not_false, if_true]
      exact ih m
    | true =>
      simp only [hb1, Bool.not_true, Bool.false_eq_true, if_false]
      cases hb2 : platformsOnlyMatch platform md0.platform with
      | false =>
        simp only [platform_eta, hb2, Bool.not_false, if_true]
        exact ih m
      | true =>
        simp only [platform_eta, hb2, Bool.not_true, Bool.false_eq_true, if_false]
        cases hc : env.content md0.digest with
        | ok data =>
          have hc2 : (ScanEnv.truncate env).content md0.digest = .ok (data.take 1000000) := by
            simp [ScanEnv.truncate, contentTrunc, hc]
          rw [hc2]
          dsimp only
          have hmr : makeRdr (data.take 1000000) = makeRdr data := by
            simp [makeRdr, List.take_take]
          rw [hmr]
          cases hp : codec.parseManifest (makeRdr data) with
          | err =>
            dsimp only
            exact ih m
          | absent =>
            dsimp only
            cases hd : (m.config.digest == imgDigest) with
            | true => simp only [hd, eq_self_iff_true, if_true]
            | false =>
              simp only [hd, Bool.false_eq_true, if_false]
              exact ih m
          | value cfg =>
            dsimp only
            cases hd : (cfg.digest == imgDigest) with
            | true => simp only [hd, eq_self_iff_true, if_true]
            | false =>
              simp only [hd, Bool.false_eq_true, if_false]
              exact ih ⟨cfg⟩
        | lookupNotFound =>
          have hc2 : (ScanEnv.truncate env).content md0.digest = .lookupNotFound := by
            simp [ScanEnv.truncate, contentTrunc, hc]
          rw [hc2]
          dsimp only
          exact ih m
        | lookupErr =>
          have hc2 : (ScanEnv.truncate env).content md0.digest = .lookupErr := by
            simp [ScanEnv.truncate, contentTrunc, hc]
          rw [hc2]
          dsimp only
          exact ih m
        | readErr =>
          have hc2 : (ScanEnv.truncate env).content md0.digest = .readErr := by
            simp [ScanEnv.truncate, contentTrunc, hc]
          rw [hc2]
          dsimp only
          exact ih m

theorem scanLeaseResources_truncate (env : ScanEnv) (codec : JsonCodec)
    (imgDigest : String) (platform : Platform) (ls : List LeaseResource) :
    ∀ m : Manifest,
      scanLeaseResources (ScanEnv.truncate env) codec imgDigest platform ls m =
        scanLeaseResources env codec imgDigest platform ls m := by
  induction ls with
  | nil => intro m; rfl
  | cons r0 rest ih =>
    intro m
    rw [scanLeaseResources.eq_def]
    conv_rhs => rw [scanLeaseResources.eq_def]
    dsimp only
    cases hb1 : (r0.type != "content") with
    | true =>
      simp only [hb1, if_true]
      exact ih m
    | false =>
      simp only [hb1, Bool.false_eq_true, if_false]
      cases hc : env.content r0.id with
      | ok data =>
        have hc2 : (ScanEnv.truncate env).content r0.id = .ok (data.take 1000000) := by
          simp [ScanEnv.truncate, contentTrunc, hc]
        rw [hc2]
        dsimp only
        have hmr : makeRdr (data.take 1000000) = makeRdr data := by
          simp [makeRdr, List.take_take]
        rw [hmr]
        cases hp : codec.parseManifestList (makeRdr data) with
        | err =>
          dsimp only
          exact ih m
        | absent =>
          dsimp only
          rw [checkManifestEntries_truncate env codec imgDigest platform [] m]
          rcases hck : checkManifestEntries env codec imgDigest platform [] m with ⟨b, m2⟩
          cases b with
          | true => rfl
          | false =>
            dsimp only
            exact ih m2
        | value entries =>
          dsimp only
          rw [checkManifestEntries_truncate env codec imgDigest platform entries m]
          rcases hck : checkManifestEntries env codec imgDigest platform entries m with ⟨b, m2⟩
          cases b with
          | true => rfl
          | false =>
            dsimp only
            exact ih m2
      | lookupNotFound =>
        have hc2 : (ScanEnv.truncate env).content r0.id = .lookupNotFound := by
          simp [ScanEnv.truncate, contentTrunc, hc]
        rw [hc2]
        dsimp only
        exact ih m
      | lookupErr =>
        have hc2 : (ScanEnv.truncate env).content r0.id = .lookupErr := by
          simp [ScanEnv.truncate, contentTrunc, hc]
        rw [hc2]
        dsimp only
        exact ih m
      | readErr =>
        have hc2 : (ScanEnv.truncate env).content r0.id = .readErr := by
          simp [ScanEnv.truncate, contentTrunc, hc]
        rw [hc2]
        dsimp only
        exact ih m

/-- C9: every blob handled during a scan is consumed only through the bounded
read: the scanner's result is unchanged when every blob in the content store
is truncated to its first 1,000,000 bytes, and the bounded read of any blob
has length `min 1000000 (length of the blob)` — so a larger blob is fed to
the parser truncated, never in full. -/
theorem scanner_bounded_read (env : ScanEnv) (codec : JsonCodec) (img : Image)
    (platform : Platform) (data : List Nat) :
    manifestMatchesPlatform env codec img platform =
      manifestMatchesPlatform (ScanEnv.truncate env) codec img platform ∧
    (makeRdr data).length = min 1000000 data.length := by
  constructor
  · unfold manifestMatchesPlatform
    have hl : (ScanEnv.truncate env).leases = env.leases := rfl
    rw [hl]
    cases env.leases (imageKey img.id) with
    | error e => cases e <;> rfl
    | ok ls =>
      dsimp only
      rw [scanLeaseResources_truncate env codec img.id platform ls]
  · simp [makeRdr]

/-- C10: the accumulated entry list is cleared before each resource's blob is
parsed, so the scan of `r :: rest` is determined by exactly the entries
parsed from `r`'s own blob (zero entries when the blob is valid JSON without
a `manifests` field), with no entries leaking from one resource into the
evaluation of a later one. -/
theorem scan_clears_entries_per_resource (env : ScanEnv) (codec : JsonCodec)
    (imgDigest : String) (platform : Platform) (r : LeaseResource)
    (rest : List LeaseResource) (m : Manifest) (es : List Descriptor)
    (h : entriesForResource env codec r = some es) :
    scanLeaseResources env codec imgDigest platform (r :: rest) m =
      (if (checkManifestEntries env codec imgDigest platform es m).1 then true
       else scanLeaseResources env codec imgDigest platform rest
         (checkManifestEntries env codec imgDigest platform es m).2) := by
  unfold entriesForResource at h
  rw [scanLeaseResources.eq_def]
  dsimp only
  by_cases htype : r.type = "content"
  case neg =>
    rw [if_neg htype] at h
    exact Option.noConfusion h
  case pos =>
    rw [if_pos htype] at h
    have hb1 : (r.type != "content") = false := by simp [htype]
    simp only [hb1, Bool.false_eq_true, if_false]
    cases hc : env.content r.id with
    | ok data =>
      rw [hc] at h
      dsimp only at h
      dsimp only
      cases hp : codec.parseManifestList (makeRdr data) with
      | err =>
        rw [hp] at h
        exact Option.noConfusion h
      | absent =>
        rw [hp] at h
        injection h with hes
        subst hes
        dsimp only
        rcases hck : checkManifestEntries env codec imgDigest platform [] m with ⟨b, m2⟩
        cases b <;> simp
      | value entries =>
        rw [hp] at h
        injection h with hes
        subst hes
        dsimp only
        rcases hck : checkManifestEntries env codec imgDigest platform entries m with ⟨b, m2⟩
        cases b <;> simp
    | lookupNotFound =>
      rw [hc] at h
      exact Option.noConfusion h
    | lookupErr =>
      rw [hc] at h
      exact Option.noConfusion h
    | readErr =>
      rw [hc] at h
      exact Option.noConfusion h

/-- Witness for C10: a blob that is valid JSON without a `manifests` field
contributes exactly zero entries. -/
theorem scan_clears_entries_per_resource_witness :
    scanLeaseResources envAbsent codecAbsent imgW.id platW [rW] ⟨⟨""⟩⟩ =
      (if (checkManifestEntries envAbsent codecAbsent imgW.id platW [] ⟨⟨""⟩⟩).1 then true
       else scanLeaseResources envAbsent codecAbsent imgW.id platW []
         (checkManifestEntries envAbsent codecAbsent imgW.id platW [] ⟨⟨""⟩⟩).2) :=
  scan_clears_entries_per_resource envAbsent codecAbsent imgW.id platW rW [] ⟨⟨""⟩⟩ []
    (by decide)

end DockerImages
